import Mathlib

/-!
Shallow embedding of the ETL pipeline in `etl.py`.

Python strings are modelled as `List Char` (`Str`): Python slicing,
`str.replace`, `str.strip` and `re.sub` all act on sequences of code points,
which `List Char` captures directly.  Machine-level concerns (floats in the
account fields) are carried opaquely as `Int`; no claim inspects them.
JSON dictionaries fetched from the remote service are modelled two ways:
a raw `Json` value at the fetch boundary (where the orchestrator's truthiness
filter acts on arbitrary parsed JSON), and a structured `User` record for the
transform/report stages (where the code reads fixed keys).  In `User`, a key
that is absent behaves identically to one holding `[]` everywhere in the
source (`get("news", []) or []`, `setdefault("news", [])`), so absence is
modelled as `some []`; a JSON `null` value, which the source treats
differently (`setdefault` keeps it, `.append` then fails), is `none`.
-/

namespace Etl

abbrev Str := List Char

/-- Python's `\s` / `str.strip` whitespace, ASCII part: space, tab, newline,
carriage return, vertical tab, form feed. -/
def isSpace (c : Char) : Bool :=
  c = ' ' || c = '\t' || c = '\n' || c = '\r' || c = Char.ofNat 11 || c = Char.ofNat 12

/-- Python `s.replace(ab, "")` for a two-character pattern `ab`: delete
non-overlapping occurrences, scanning left to right. -/
def replace2 (a b : Char) : Str → Str
  | [] => []
  | [c] => [c]
  | c :: d :: rest =>
    if c = a && d = b then replace2 a b rest
    else c :: replace2 a b (d :: rest)

/-- Python `s.replace(a, "")` for a single character: remove all occurrences. -/
def removeChar (a : Char) (l : Str) : Str := l.filter (fun c => c ≠ a)

/-- Leading-whitespace strip (left half of Python `str.strip`). -/
def lstrip (l : Str) : Str := l.dropWhile isSpace

/-- Trailing-whitespace strip (right half of Python `str.strip`). -/
def rstrip (l : Str) : Str := (l.reverse.dropWhile isSpace).reverse

/-- Python `str.strip()`. -/
def strip (l : Str) : Str := rstrip (lstrip l)

/-- Python `re.sub(r"\s+", " ", s)`: every maximal run of whitespace becomes
one single space character. -/
def collapseWs : Str → Str
  | [] => []
  | [c] => [if isSpace c then ' ' else c]
  | c :: d :: rest =>
    if isSpace c && isSpace d then collapseWs (d :: rest)
    else (if isSpace c then ' ' else c) :: collapseWs (d :: rest)

/-- `clean_text` from `etl.py`: strip, delete `**` pairs, delete `__` pairs,
remove backticks, remove asterisks, collapse whitespace runs, strip again. -/
def clean_text (t : Str) : Str :=
  let t1 := strip t
  let t2 := replace2 '*' '*' t1
  let t3 := replace2 '_' '_' t2
  let t4 := removeChar (Char.ofNat 96) t3
  let t5 := removeChar '*' t4
  strip (collapseWs t5)

/-- One element of a user's `news` list: `{"id": ..., "icone": ..., "descricao": ...}`.
`id` is `Option` because `n.get("id", 0)` tolerates a missing key. -/
structure NewsItem where
  id : Option Int
  icone : String
  descricao : Str
deriving Repr, DecidableEq

/-- The embedded `conta` dictionary. The monetary fields are carried opaquely. -/
structure Conta where
  agencia : Str
  numero : Str
  balanco : Int
  limite : Int
deriving Repr, DecidableEq

/-- `conta.get(..., default)` on a missing/empty `conta` dictionary. -/
def emptyConta : Conta := ⟨[], [], 0, 0⟩

/-- A user dictionary as the transform/report stages read it.
`news = none` models a JSON `null` value under the `"news"` key; an absent
key is `some []` (see the module comment). -/
structure User where
  id : Option Int
  nome : Option Str
  conta : Option Conta
  news : Option (List NewsItem)
deriving Repr, DecidableEq

/-- `user.get("news", []) or []`. -/
def newsListOf (u : User) : List NewsItem := u.news.getD []

/-- `next_news_id` from `etl.py`:
`1` on an empty/absent/null list, else `max(int(n.get("id", 0)) for n in news_list) + 1`. -/
def next_news_id (u : User) : Int :=
  match newsListOf u with
  | [] => 1
  | n :: rest => (rest.foldl (fun a m => max a (m.id.getD 0)) (n.id.getD 0)) + 1

/-- Outcome of one `client.models.generate_content` call: a response whose
`.text` attribute is a string or `None`, a `google.genai.errors.APIError`,
or any other exception. -/
inductive GenResult where
  | ok (text : Option Str)
  | apiError (code : Option Str) (message : Str)
  | exn (message : Str)
deriving Repr, DecidableEq

/-- The fixed fallback sentence, personalized: `f"{nome}, investir com
consistência fortalece seu futuro financeiro."`. -/
def fallback_msg (nome : Str) : Str :=
  nome ++ (", investir com consistência fortalece seu futuro financeiro.").toList

/-- `generate_ai_news_gemini` from `etl.py`, with the service call replaced by
its result.  `nome = user.get("nome", "Cliente")`; on success the response
text is cleaned and, if empty, replaced by the raw fallback; on `APIError` or
any other exception the cleaned fallback is used; always truncated to 100. -/
def generate_ai_news_gemini (res : GenResult) (u : User) : Str :=
  let nome := u.nome.getD ("Cliente".toList)
  match res with
  | .ok t =>
    let text := clean_text (t.getD [])
    let text := if text = [] then fallback_msg nome else text
    text.take 100
  | .apiError _ _ => (clean_text (fallback_msg nome)).take 100
  | .exn _ => (clean_text (fallback_msg nome)).take 100

/-- The loop body of `transform_add_news_gemini` for one user:
`u.setdefault("news", [])` followed by `u["news"].append({...})`.
When `u["news"]` is JSON `null`, `setdefault` keeps the `None` value and the
`.append` raises `AttributeError` — modelled as `none`. -/
def enrich_user (gen : User → GenResult) (icon : String) (u : User) : Option User :=
  let msg := generate_ai_news_gemini (gen u) u
  match u.news with
  | none => none
  | some l => some { u with news := some (l ++ [⟨some (next_news_id u), icon, msg⟩]) }

/-- The `for u in users` loop of `transform_add_news_gemini`: a raised
exception aborts the whole loop (`Except.error`). -/
def transform_aux (gen : User → GenResult) (icon : String) : List User → Except Unit (List User)
  | [] => .ok []
  | u :: rest =>
    match enrich_user gen icon u with
    | none => .error ()
    | some u' =>
      match transform_aux gen icon rest with
      | .error e => .error e
      | .ok us => .ok (u' :: us)

/-- `transform_add_news_gemini` from `etl.py`: raises `ValueError` when no
Gemini API key is configured, then enriches every user in order. -/
def transform_add_news_gemini (apiKey : Option String) (gen : User → GenResult)
    (icon : String) (users : List User) : Except Unit (List User) :=
  match apiKey with
  | none => .error ()
  | some _ => transform_aux gen icon users

/-- One row of the report written by `save_report_csv`. -/
structure ReportRow where
  user_id : Option Int
  nome : Option Str
  agencia : Str
  conta : Str
  balanco : Int
  limite : Int
  qtd_news_total : Nat
  ultima_news : Str
deriving Repr, DecidableEq

/-- The projection of one user to its report row. -/
def rowOf (u : User) : ReportRow :=
  let conta := u.conta.getD emptyConta
  let newsList := newsListOf u
  let last := match newsList.getLast? with
    | some n => n.descricao
    | none => []
  ⟨u.id, u.nome, conta.agencia, conta.numero, conta.balanco, conta.limite,
    newsList.length, clean_text last⟩

/-- `save_report_csv` from `etl.py`, as the sequence of rows it serializes
(the actual file write is a straight dump of these rows with a header). -/
def save_report_csv (users : List User) : List ReportRow := users.map rowOf

/-- A parsed JSON value, as `resp.json()` can produce it.  Numbers are carried
as integers (the record service's ids); field order in objects is kept. -/
inductive Json where
  | null
  | bool (b : Bool)
  | num (n : Int)
  | str (s : String)
  | arr (xs : List Json)
  | obj (fields : List (String × Json))
deriving Repr

/-- Python truthiness of a parsed JSON value (`if u:` in `main`). -/
def pyTruthy : Json → Bool
  | .null => false
  | .bool b => b
  | .num n => decide (n ≠ 0)
  | .str s => !s.isEmpty
  | .arr xs => !xs.isEmpty
  | .obj fs => !fs.isEmpty

/-- An HTTP response as the code reads it: status code, parsed body, raw text. -/
structure HttpResp (β : Type) where
  status : Nat
  body : β
  text : Str
deriving Repr, DecidableEq

/-- Outcome of one `requests.get`/`requests.put` call: a response, or a
raised `requests` exception (connection error / timeout). -/
inductive HttpResult (β : Type) where
  | resp (r : HttpResp β)
  | transportError
deriving Repr, DecidableEq

/-- `get_user` from `etl.py`.  The network call is an oracle from the
identifier to its `HttpResult`; a transport exception propagates
(`Except.error`), 200 returns the parsed body, 404 and every other status
log and return `None`. -/
def get_user (fetch : Int → HttpResult β) (uid : Int) : Except Unit (Option β) :=
  match fetch uid with
  | .transportError => .error ()
  | .resp r =>
    if r.status = 200 then .ok (some r.body)
    else if r.status = 404 then .ok none
    else .ok none

/-- The fetch loop of `main`: `users = []; for uid in user_ids: u = get_user(...);
if u: users.append(u)`.  The truthiness test is a parameter so the loop can be
stated for any body type. -/
def fetchUsers (truthy : β → Bool) (fetch : Int → HttpResult β) :
    List Int → Except Unit (List β)
  | [] => .ok []
  | uid :: rest =>
    match get_user fetch uid with
    | .error e => .error e
    | .ok ou =>
      match fetchUsers truthy fetch rest with
      | .error e => .error e
      | .ok us =>
        .ok (match ou with
          | some u => if truthy u then u :: us else us
          | none => us)

/-- The error log entry `error(f"PUT {url} -> {status} | {text[:200]}")`
carries the status and the body text truncated to 200 characters. -/
structure ErrLog where
  status : Nat
  snippet : Str
deriving Repr, DecidableEq

/-- The status-dispatch part of `update_user`: 200 yields `True` with no error
log; any other status logs the status with the truncated body and yields
`False`. -/
def update_user_resp (status : Nat) (text : Str) : Bool × Option ErrLog :=
  if status = 200 then (true, none)
  else (false, some ⟨status, text.take 200⟩)

/-- `update_user` from `etl.py`: the `requests.put` call is an oracle from the
record to its `HttpResult`; a transport exception propagates, any response is
turned into a boolean without raising. -/
def update_user (put : β → HttpResult Unit) (u : β) : Except Unit (Bool × Option ErrLog) :=
  match put u with
  | .transportError => .error ()
  | .resp r => .ok (update_user_resp r.status r.text)

/-- The update loop of `main`: `ok_count = 0; for u in users:
if update_user(...): ok_count += 1`.  A raised transport exception aborts the
loop and the run. -/
def run_updates (put : β → HttpResult Unit) : List β → Except Unit Nat
  | [] => .ok 0
  | u :: rest =>
    match update_user put u with
    | .error e => .error e
    | .ok (b, _) =>
      match run_updates put rest with
      | .error e => .error e
      | .ok n => .ok (if b then n + 1 else n)

/-- Errors `read_user_ids` raises: missing identifier column (`ValueError`
naming the columns), or no usable ids (`ValueError`). -/
inductive EtlErr where
  | schema
  | emptyInput
deriving Repr, DecidableEq

/-- The identity CSV as pandas exposes it: column names, and for each column
the cells of the identifier column in file row order — an integer value or a
missing cell (`NaN`, dropped by `dropna`).  Cells that are non-numeric text
(which would make `astype(int)` raise) are outside the model. -/
structure DataFrame where
  columns : List String
  col : String → List (Option Int)

/-- `next((c for c in ["user_id", "UserID"] if c in df.columns), None)`. -/
def findIdCol (df : DataFrame) : Option String :=
  (["user_id", "UserID"]).find? (fun c => df.columns.contains c)

/-- `read_user_ids` from `etl.py`: locate the identifier column, drop missing
cells, coerce to integers, and fail when no column or no id is found. -/
def read_user_ids (df : DataFrame) : Except EtlErr (List Int) :=
  match findIdCol df with
  | none => .error .schema
  | some c =>
    let ids := (df.col c).filterMap id
    if ids = [] then .error .emptyInput else .ok ids

/-- Modelled from the spec's words for the refinement in C7: "the non-missing
values of that column coerced to integers, in file row order". -/
def specReadIds (df : DataFrame) : List Int :=
  match findIdCol df with
  | none => []
  | some c => (df.col c).filterMap id

/-! ## Helper lemmas for the maximum fold in `next_news_id` -/

lemma le_foldl_max (l : List NewsItem) (a : Int) :
    a ≤ l.foldl (fun acc m => max acc (m.id.getD 0)) a := by
  induction l generalizing a with
  | nil => simp
  | cons n rest ih =>
    simp only [List.foldl_cons]
    exact le_trans (le_max_left a _) (ih _)

lemma mem_le_foldl_max (l : List NewsItem) (a : Int) :
    ∀ n ∈ l, n.id.getD 0 ≤ l.foldl (fun acc m => max acc (m.id.getD 0)) a := by
  induction l generalizing a with
  | nil => simp
  | cons n rest ih =>
    intro m hm
    rcases List.mem_cons.mp hm with h | h
    · subst h
      simp only [List.foldl_cons]
      exact le_trans (le_max_right a _) (le_foldl_max rest _)
    · simpa only [List.foldl_cons] using ih _ m h

lemma foldl_max_attained (l : List NewsItem) (a : Int) :
    l.foldl (fun acc m => max acc (m.id.getD 0)) a = a ∨
      ∃ n ∈ l, l.foldl (fun acc m => max acc (m.id.getD 0)) a = n.id.getD 0 := by
  induction l generalizing a with
  | nil => exact Or.inl rfl
  | cons n rest ih =>
    simp only [List.foldl_cons]
    rcases ih (max a (n.id.getD 0)) with h | ⟨m, hm, h⟩
    · rcases max_choice a (n.id.getD 0) with hmax | hmax
      · exact Or.inl (h.trans hmax)
      · exact Or.inr ⟨n, List.mem_cons_self n rest, h.trans hmax⟩
    · exact Or.inr ⟨m, List.mem_cons_of_mem n hm, h⟩

/-- C3: `next_news_id` is 1 plus the maximum existing content-item id (an item
with no id counting as 0), or 1 when the content list is empty or absent. -/
theorem claim_c3_theorem (u : User) :
    (newsListOf u = [] → next_news_id u = 1) ∧
    (∀ n ∈ newsListOf u, n.id.getD 0 < next_news_id u) ∧
    (newsListOf u ≠ [] → ∃ n ∈ newsListOf u, next_news_id u = n.id.getD 0 + 1) := by
  rcases hl : newsListOf u with _ | ⟨n, rest⟩
  · refine ⟨fun _ => ?_, by simp, fun h => absurd rfl h⟩
    simp [next_news_id, hl]
  · have hnext : next_news_id u
        = (rest.foldl (fun a m => max a (m.id.getD 0)) (n.id.getD 0)) + 1 := by
      simp [next_news_id, hl]
    refine ⟨fun h => by simp at h, ?_, fun _ => ?_⟩
    · intro m hm
      rw [hnext]
      rcases List.mem_cons.mp hm with h | h
      · subst h
        exact lt_of_le_of_lt (le_foldl_max rest _) (lt_add_one _)
      · exact lt_of_le_of_lt (mem_le_foldl_max rest _ m h) (lt_add_one _)
    · rcases foldl_max_attained rest (n.id.getD 0) with h | ⟨m, hm, h⟩
      · exact ⟨n, List.mem_cons_self n rest, by rw [hnext, h]⟩
      · exact ⟨m, List.mem_cons_of_mem n hm, by rw [hnext, h]⟩

/-- A user whose content list carries ids 1, 2, 4. -/
def uIds124 : User :=
  ⟨some 1, none, none, some [⟨some 1, "i", []⟩, ⟨some 2, "i", []⟩, ⟨some 4, "i", []⟩]⟩

/-- A user with an empty content list. -/
def uIdsNone : User := ⟨some 2, none, none, some []⟩

theorem claim_c3_witness :
    next_news_id uIds124 = 5 ∧ next_news_id uIdsNone = 1 ∧
      (∃ n ∈ newsListOf uIds124, next_news_id uIds124 = n.id.getD 0 + 1) :=
  ⟨by decide, (claim_c3_theorem uIdsNone).1 (by decide),
    (claim_c3_theorem uIds124).2.2 (by decide)⟩

/-- C4: whatever the generation service returns — text of any length, empty
text, `None`, an API error, or an unexpected exception — the string produced
by the content generator has at most 100 characters. -/
theorem claim_c4_theorem (res : GenResult) (u : User) :
    (generate_ai_news_gemini res u).length ≤ 100 := by
  cases res with
  | ok t =>
    simp only [generate_ai_news_gemini]
    exact List.length_take_le 100 _
  | apiError c m => exact List.length_take_le 100 _
  | exn m => exact List.length_take_le 100 _

/-- C8: on any HTTP response, `update_user` never raises; status 200 yields
`True` with no error log, any other status yields `False` after logging the
status and the body truncated to 200 characters. -/
theorem claim_c8_theorem (put : β → HttpResult Unit) (u : β) (r : HttpResp Unit)
    (h : put u = .resp r) :
    update_user put u = .ok (update_user_resp r.status r.text) ∧
    (r.status = 200 → update_user_resp r.status r.text = (true, none)) ∧
    (r.status ≠ 200 →
      update_user_resp r.status r.text = (false, some ⟨r.status, r.text.take 200⟩)) := by
  refine ⟨?_, fun h200 => ?_, fun hne => ?_⟩
  · simp [update_user, h]
  · simp [update_user_resp, h200]
  · simp [update_user_resp, hne]

/-- A PUT oracle answering 500 with body `"oops"`. -/
def put500 : Unit → HttpResult Unit := fun _ => .resp ⟨500, (), ("oops").toList⟩

theorem claim_c8_witness :
    update_user put500 () = .ok (update_user_resp 500 (("oops").toList)) ∧
      update_user_resp 500 (("oops").toList)
        = (false, some ⟨500, (("oops").toList).take 200⟩) := by
  have h := claim_c8_theorem put500 () ⟨500, (), ("oops").toList⟩ rfl
  exact ⟨h.1, h.2.2 (by decide)⟩

/-- C5: when the generation call fails with any error — a service-level
`APIError` or any unexpected exception — the generator returns the
deterministic fallback (cleaned, personalized with the record's display name,
truncated to 100 characters), and the enricher appends a content item carrying
exactly that text. -/
theorem claim_c5_theorem (gen : User → GenResult) (icon : String) (u u' : User)
    (herr : (∃ c m, gen u = .apiError c m) ∨ (∃ m, gen u = .exn m))
    (henr : enrich_user gen icon u = some u') :
    generate_ai_news_gemini (gen u) u
        = (clean_text (fallback_msg (u.nome.getD (("Cliente").toList)))).take 100 ∧
    ∃ l, u.news = some l ∧
      u'.news = some (l ++ [⟨some (next_news_id u), icon,
        (clean_text (fallback_msg (u.nome.getD (("Cliente").toList)))).take 100⟩]) := by
  have hgen : generate_ai_news_gemini (gen u) u
      = (clean_text (fallback_msg (u.nome.getD (("Cliente").toList)))).take 100 := by
    rcases herr with ⟨c, m, h⟩ | ⟨m, h⟩ <;> simp [generate_ai_news_gemini, h]
  refine ⟨hgen, ?_⟩
  rcases hn : u.news with _ | l
  · simp [enrich_user, hn] at henr
  · refine ⟨l, rfl, ?_⟩
    simp only [enrich_user, hn, Option.some.injEq] at henr
    rw [← henr, ← hgen]

/-- A generation oracle that always fails with an `APIError`. -/
def genApiErr : User → GenResult := fun _ => .apiError none []

/-- A record named Ana with an empty content list. -/
def uAna : User := ⟨some 7, some (("Ana").toList), none, some []⟩

/-- The record `uAna` after enrichment under a failing generation service. -/
def uAnaEnriched : User :=
  ⟨some 7, some (("Ana").toList), none,
    some [⟨some 1, "icon",
      ("Ana, investir com consistência fortalece seu futuro financeiro.").toList⟩]⟩

theorem claim_c5_witness :
    generate_ai_news_gemini (genApiErr uAna) uAna
        = (clean_text (fallback_msg (uAna.nome.getD (("Cliente").toList)))).take 100 ∧
    ∃ l, uAna.news = some l ∧
      uAnaEnriched.news = some (l ++ [⟨some (next_news_id uAna), "icon",
        (clean_text (fallback_msg (uAna.nome.getD (("Cliente").toList)))).take 100⟩]) :=
  claim_c5_theorem genApiErr "icon" uAna uAnaEnriched (Or.inl ⟨none, [], rfl⟩) (by decide)

/-! ## The fetch and update loops under transport failures (C1) -/

lemma get_user_transport (fetch : Int → HttpResult β) (uid : Int)
    (h : fetch uid = .transportError) : get_user fetch uid = .error () := by
  simp [get_user, h]

lemma get_user_resp (fetch : Int → HttpResult β) (uid : Int) (r : HttpResp β)
    (h : fetch uid = .resp r) : ∃ ou, get_user fetch uid = .ok ou := by
  simp only [get_user, h]
  split
  · exact ⟨_, rfl⟩
  · split
    · exact ⟨_, rfl⟩
    · exact ⟨_, rfl⟩

lemma fetchUsers_ok_iff (truthy : β → Bool) (fetch : Int → HttpResult β) (ids : List Int) :
    (∃ out, fetchUsers truthy fetch ids = .ok out) ↔
      ∀ uid ∈ ids, fetch uid ≠ .transportError := by
  induction ids with
  | nil => simp [fetchUsers]
  | cons uid rest ih =>
    simp only [List.forall_mem_cons]
    cases h : fetch uid with
    | transportError =>
      simp only [fetchUsers, get_user_transport fetch uid h]
      constructor
      · rintro ⟨out, hout⟩
        cases hout
      · rintro ⟨habs, -⟩
        exact absurd rfl habs
    | resp r =>
      obtain ⟨ou, hou⟩ := get_user_resp fetch uid r h
      simp only [fetchUsers, hou]
      cases hrest : fetchUsers truthy fetch rest with
      | error e =>
        constructor
        · rintro ⟨out, hout⟩
          cases hout
        · rintro ⟨-, hall⟩
          obtain ⟨out, hout⟩ := ih.mpr hall
          rw [hrest] at hout
          cases hout
      | ok us =>
        constructor
        · rintro -
          exact ⟨fun habs => HttpResult.noConfusion habs, ih.mp ⟨_, hrest⟩⟩
        · rintro -
          exact ⟨_, rfl⟩

lemma run_updates_ok_iff (put : β → HttpResult Unit) (us : List β) :
    (∃ n, run_updates put us = .ok n) ↔ ∀ u ∈ us, put u ≠ .transportError := by
  induction us with
  | nil => simp [run_updates]
  | cons u rest ih =>
    simp only [List.forall_mem_cons]
    cases h : put u with
    | transportError =>
      have hupd : update_user put u = .error () := by simp [update_user, h]
      simp only [run_updates, hupd]
      constructor
      · rintro ⟨n, hn⟩
        cases hn
      · rintro ⟨habs, -⟩
        exact absurd rfl habs
    | resp r =>
      have hupd : update_user put u = .ok (update_user_resp r.status r.text) := by
        simp [update_user, h]
      simp only [run_updates, hupd]
      cases hrest : run_updates put rest with
      | error e =>
        constructor
        · rintro ⟨n, hn⟩
          cases hn
        · rintro ⟨-, hall⟩
          obtain ⟨n, hn⟩ := ih.mpr hall
          rw [hrest] at hn
          cases hn
      | ok n =>
        constructor
        · rintro -
          exact ⟨fun habs => HttpResult.noConfusion habs, ih.mp ⟨_, hrest⟩⟩
        · rintro -
          exact ⟨_, rfl⟩

/-- C1 (amended): the loops of `main` recover from HTTP status failures but
not from transport failures — the fetch loop (and likewise the update loop)
completes exactly when no attempted call raises a transport error; a single
transport failure aborts the whole run instead of being handled per record. -/
theorem claim_c1_theorem (truthy : β → Bool) (fetch : Int → HttpResult β)
    (put : γ → HttpResult Unit) (ids : List Int) (us : List γ) :
    ((∃ out, fetchUsers truthy fetch ids = .ok out) ↔
        ∀ uid ∈ ids, fetch uid ≠ .transportError) ∧
    ((∃ n, run_updates put us = .ok n) ↔ ∀ u ∈ us, put u ≠ .transportError) :=
  ⟨fetchUsers_ok_iff truthy fetch ids, run_updates_ok_iff put us⟩

/-- A GET oracle that times out on identifier 1 and answers 200 elsewhere. -/
def cFetch : Int → HttpResult Json := fun uid =>
  if uid = 1 then .transportError else .resp ⟨200, Json.obj [("id", Json.num 2)], []⟩

/-- A PUT oracle whose connection always fails. -/
def cPut : Json → HttpResult Unit := fun _ => .transportError

/-- C1 fails on the code: a transport failure while fetching identifier 1
aborts the whole fetch loop (identifier 2, which would succeed on its own, is
never delivered), and a transport failure while updating aborts the tally
loop instead of counting a failed update. -/
theorem claim_c1_counterexample :
    fetchUsers pyTruthy cFetch [1, 2] = Except.error () ∧
    fetchUsers pyTruthy cFetch [2] = Except.ok [Json.obj [("id", Json.num 2)]] ∧
    run_updates cPut [Json.obj [("id", Json.num 2)]] = Except.error () :=
  ⟨rfl, rfl, rfl⟩

/-- A GET oracle with no transport failures. -/
def wFetch : Int → HttpResult Json := fun _ => .resp ⟨200, Json.obj [("n", Json.num 1)], []⟩

/-- A PUT oracle with no transport failures. -/
def wPut : Json → HttpResult Unit := fun _ => .resp ⟨200, (), []⟩

theorem claim_c1_witness :
    ((∃ out, fetchUsers pyTruthy wFetch [2] = .ok out) ↔
        ∀ uid ∈ [(2 : Int)], wFetch uid ≠ .transportError) ∧
    ((∃ n, run_updates wPut [Json.null] = .ok n) ↔
        ∀ u ∈ [Json.null], wPut u ≠ .transportError) :=
  claim_c1_theorem pyTruthy wFetch wPut [2] [Json.null]

/-! ## The Generating stage (C2) -/

lemma transform_aux_total (gen : User → GenResult) (icon : String) (users : List User)
    (hnn : ∀ u ∈ users, u.news ≠ none) :
    ∃ out, transform_aux gen icon users = .ok out ∧ out.length = users.length := by
  induction users with
  | nil => exact ⟨[], rfl, rfl⟩
  | cons u rest ih =>
    obtain ⟨hu, hrest⟩ := List.forall_mem_cons.mp hnn
    rcases hn : u.news with _ | l
    · exact absurd hn hu
    · obtain ⟨us, hus, hlen⟩ := ih hrest
      refine ⟨{ u with news := some (l ++ [⟨some (next_news_id u), icon,
        generate_ai_news_gemini (gen u) u⟩]) } :: us, ?_, by simp [hlen]⟩
      simp [transform_aux, enrich_user, hn, hus]

/-- C2 (amended): with a generation credential configured and no record whose
content field is JSON `null`, the Generating stage cannot fail outward — it
enriches every record in order regardless of what the generation service
returns, so no generation-service error reaches the orchestrator. -/
theorem claim_c2_theorem (key : String) (gen : User → GenResult) (icon : String)
    (users : List User) (hnn : ∀ u ∈ users, u.news ≠ none) :
    ∃ out, transform_add_news_gemini (some key) gen icon users = .ok out ∧
      out.length = users.length := by
  simpa [transform_add_news_gemini] using transform_aux_total gen icon users hnn

/-- A generation oracle that succeeds with the text `"oi"`. -/
def genOk : User → GenResult := fun _ => .ok (some (("oi").toList))

/-- A record whose `news` field is JSON `null`. -/
def uNullNews : User := ⟨some 3, some (("Bia").toList), none, none⟩

/-- C2 fails on the code: for a record whose `news` field is `null`,
`setdefault("news", [])` keeps the `None` value and `.append` raises an
`AttributeError` that propagates to the orchestrator — even though the
generation service itself succeeded. -/
theorem claim_c2_counterexample :
    transform_add_news_gemini (some "key") genOk "icon" [uNullNews]
      = Except.error () := rfl

/-- A generation oracle that always raises an unexpected exception. -/
def genBoom : User → GenResult := fun _ => .exn []

theorem claim_c2_witness :
    ∃ out, transform_add_news_gemini (some "k") genBoom "i" [uAna] = .ok out ∧
      out.length = [uAna].length :=
  claim_c2_theorem "k" genBoom "i" [uAna] (by decide)

/-! ## Enrichment / report round trip (C6) -/

lemma transform_aux_pointwise (gen : User → GenResult) (icon : String) :
    ∀ (users out : List User), transform_aux gen icon users = .ok out →
      out.length = users.length ∧
      ∀ (i : Nat) (h1 : i < users.length) (h2 : i < out.length),
        (newsListOf out[i]).length = (newsListOf users[i]).length + 1 := by
  intro users
  induction users with
  | nil =>
    intro out h
    cases h
    exact ⟨rfl, fun i h1 _ => absurd h1 (by simp)⟩
  | cons u rest ih =>
    intro out h
    rcases he : enrich_user gen icon u with _ | u'
    · rw [transform_aux, he] at h
      cases h
    · rw [transform_aux, he] at h
      rcases hr : transform_aux gen icon rest with e | us
      · rw [hr] at h
        cases h
      · rw [hr] at h
        cases h
        obtain ⟨hlen, hpt⟩ := ih us hr
        have hu' : (newsListOf u').length = (newsListOf u).length + 1 := by
          rcases hn : u.news with _ | l
          · rw [enrich_user, hn] at he
            cases he
          · rw [enrich_user, hn] at he
            cases he
            simp [newsListOf, hn]
        refine ⟨by simp [hlen], ?_⟩
        intro i h1 h2
        cases i with
        | zero => simpa using hu'
        | succ j =>
          have h1' : j < rest.length := by simpa using h1
          have h2' : j < us.length := by simpa using h2
          simpa using hpt j h1' h2'

/-- C6: whenever the Generating stage completes on a batch of `N` records, the
report writer produces exactly `N` rows, and each row's `qtd_news_total` is
that record's original content-item count plus one. -/
theorem claim_c6_theorem (key : Option String) (gen : User → GenResult) (icon : String)
    (users out : List User)
    (h : transform_add_news_gemini key gen icon users = .ok out) :
    (save_report_csv out).length = users.length ∧
    ∀ (i : Nat) (h1 : i < users.length) (h2 : i < (save_report_csv out).length),
      ((save_report_csv out)[i]).qtd_news_total = (newsListOf users[i]).length + 1 := by
  have haux : transform_aux gen icon users = .ok out := by
    cases key with
    | none => cases h
    | some k => exact h
  obtain ⟨hlen, hpt⟩ := transform_aux_pointwise gen icon users out haux
  refine ⟨by simp [save_report_csv, hlen], ?_⟩
  intro i h1 h2
  have h2' : i < out.length := by simpa [save_report_csv] using h2
  have : (save_report_csv out)[i] = rowOf out[i] := by
    simp [save_report_csv]
  rw [this]
  have : (rowOf out[i]).qtd_news_total = (newsListOf out[i]).length := rfl
  rw [this]
  exact hpt i h1 h2'

/-- A generation oracle answering the fixed text `"Dica"`. -/
def genDica : User → GenResult := fun _ => .ok (some (("Dica").toList))

/-- A second input record, already holding one content item with id 2. -/
def uBeto : User :=
  ⟨some 8, some (("Beto").toList), none, some [⟨some 2, "i", ("velha").toList⟩]⟩

/-- `[uAna, uBeto]` after enrichment under `genDica`. -/
def outDica : List User :=
  [⟨some 7, some (("Ana").toList), none, some [⟨some 1, "ic", ("Dica").toList⟩]⟩,
   ⟨some 8, some (("Beto").toList), none,
     some [⟨some 2, "i", ("velha").toList⟩, ⟨some 3, "ic", ("Dica").toList⟩]⟩]

theorem claim_c6_witness :
    (save_report_csv outDica).length = [uAna, uBeto].length ∧
    ∀ (i : Nat) (h1 : i < [uAna, uBeto].length)
      (h2 : i < (save_report_csv outDica).length),
      ((save_report_csv outDica)[i]).qtd_news_total
        = (newsListOf ([uAna, uBeto][i])).length + 1 :=
  claim_c6_theorem (some "k") genDica "ic" [uAna, uBeto] outDica (by rfl)

/-! ## The identity-file reader (C7) -/

/-- C7 (amended): when the identity file has a recognized identifier column
and at least one non-missing value, `read_user_ids` returns exactly the
non-missing values in file row order (duplicates preserved), which is what
the spec-side reading `specReadIds` denotes. -/
theorem claim_c7_theorem (df : DataFrame) (c : String)
    (hc : findIdCol df = some c) (hne : (df.col c).filterMap id ≠ []) :
    read_user_ids df = .ok ((df.col c).filterMap id) ∧
      read_user_ids df = .ok (specReadIds df) := by
  have h1 : read_user_ids df = .ok ((df.col c).filterMap id) := by
    rw [read_user_ids, hc]
    simp [hne]
  exact ⟨h1, by rw [h1, specReadIds, hc]⟩

/-- An identity file with a `user_id` column holding `3, NaN, 3, 1`. -/
def dfDup : DataFrame :=
  ⟨["x", "user_id"], fun c => if c = "user_id" then [some 3, none, some 3, some 1] else []⟩

theorem claim_c7_witness :
    read_user_ids dfDup = .ok [3, 3, 1] ∧ read_user_ids dfDup = .ok (specReadIds dfDup) := by
  have h := claim_c7_theorem dfDup "user_id" (by rfl) (by decide)
  exact ⟨h.1, h.2⟩

/-- An identity file whose `user_id` column has no rows. -/
def dfEmpty : DataFrame := ⟨["user_id"], fun _ => []⟩

/-- C7 fails on the code at one boundary input: when every identifier cell is
missing, `read_user_ids` raises `ValueError` instead of returning the (empty)
sequence of non-missing values. -/
theorem claim_c7_counterexample :
    read_user_ids dfEmpty = Except.error EtlErr.emptyInput ∧
      specReadIds dfEmpty = [] ∧
      read_user_ids dfEmpty ≠ Except.ok (specReadIds dfEmpty) :=
  ⟨rfl, rfl, by simp [read_user_ids, specReadIds, dfEmpty, findIdCol]⟩

/-! ## The truthiness filter at the fetch boundary (C9) -/

lemma fetchUsers_mem (truthy : β → Bool) (fetch : Int → HttpResult β) :
    ∀ (ids : List Int) (out : List β), fetchUsers truthy fetch ids = .ok out →
      ∀ x ∈ out, truthy x = true ∧
        ∃ uid ∈ ids, ∃ r, fetch uid = .resp r ∧ r.status = 200 ∧ x = r.body := by
  intro ids
  induction ids with
  | nil =>
    intro out h
    cases h
    simp
  | cons uid rest ih =>
    intro out h
    cases hf : fetch uid with
    | transportError =>
      rw [fetchUsers, get_user_transport fetch uid hf] at h
      cases h
    | resp r =>
      by_cases h200 : r.status = 200
      · have hget : get_user fetch uid = .ok (some r.body) := by
          simp [get_user, hf, h200]
        rcases hrest : fetchUsers truthy fetch rest with e | us
        · exfalso
          simp [fetchUsers, hget, hrest] at h
        · simp only [fetchUsers, hget, hrest, Except.ok.injEq] at h
          subst h
          intro x hx
          by_cases ht : truthy r.body = true
          · rw [if_pos ht] at hx
            rcases List.mem_cons.mp hx with hx | hx
            · subst hx
              exact ⟨ht, uid, List.mem_cons_self uid rest, r, hf, h200, rfl⟩
            · obtain ⟨htr, uid', hmem, r', hr⟩ := ih us hrest x hx
              exact ⟨htr, uid', List.mem_cons_of_mem uid hmem, r', hr⟩
          · rw [if_neg ht] at hx
            obtain ⟨htr, uid', hmem, r', hr⟩ := ih us hrest x hx
            exact ⟨htr, uid', List.mem_cons_of_mem uid hmem, r', hr⟩
      · have hget : get_user fetch uid = .ok none := by
          simp only [get_user, hf, if_neg h200]
          exact ite_self _
        rcases hrest : fetchUsers truthy fetch rest with e | us
        · exfalso
          simp [fetchUsers, hget, hrest] at h
        · simp only [fetchUsers, hget, hrest, Except.ok.injEq] at h
          subst h
          intro x hx
          obtain ⟨htr, uid', hmem, r', hr⟩ := ih us hrest x hx
          exact ⟨htr, uid', List.mem_cons_of_mem uid hmem, r', hr⟩

lemma fetchUsers_falsy_as_notfound (f g : Int → HttpResult Json)
    (hfg : ∀ uid : Int, g uid = f uid ∨
      ∃ r r', f uid = .resp r ∧ r.status = 200 ∧ pyTruthy r.body = false ∧
        g uid = .resp r' ∧ r'.status = 404) :
    ∀ ids : List Int, fetchUsers pyTruthy f ids = fetchUsers pyTruthy g ids := by
  intro ids
  induction ids with
  | nil => rfl
  | cons uid rest ih =>
    rcases hfg uid with heq | ⟨r, r', hf, h200, hfalse, hg, h404⟩
    · have : get_user g uid = get_user f uid := by
        rw [get_user, get_user, heq]
      simp only [fetchUsers, this, ih]
    · have hgf : get_user f uid = .ok (some r.body) := by
        simp [get_user, hf, h200]
      have hgg : get_user g uid = .ok none := by
        have : r'.status ≠ 200 := by
          rw [h404]
          decide
        simp [get_user, hg, this, h404]
      simp only [fetchUsers, hgf, hgg, ih]
      rcases fetchUsers pyTruthy g rest with e | us
      · rfl
      · simp [hfalse]

/-- C9: only truthy parsed values enter the Batch — a 200 response whose body
parses to a falsy JSON value (such as an empty object) is excluded exactly as
a 404 would be, so as long as the service answers 200 with JSON objects,
every Batch member is a non-empty mapping. -/
theorem claim_c9_theorem :
    (∀ (fetch : Int → HttpResult Json) (ids : List Int) (out : List Json),
      fetchUsers pyTruthy fetch ids = .ok out →
        (∀ j ∈ out, pyTruthy j = true) ∧
        ((∀ (uid : Int) (r : HttpResp Json), fetch uid = .resp r → r.status = 200 →
            ∃ fs, r.body = Json.obj fs) →
          ∀ j ∈ out, ∃ fs, j = Json.obj fs ∧ fs ≠ [])) ∧
    (∀ f g : Int → HttpResult Json,
      (∀ uid : Int, g uid = f uid ∨
        ∃ r r', f uid = .resp r ∧ r.status = 200 ∧ pyTruthy r.body = false ∧
          g uid = .resp r' ∧ r'.status = 404) →
      ∀ ids : List Int, fetchUsers pyTruthy f ids = fetchUsers pyTruthy g ids) := by
  refine ⟨?_, fetchUsers_falsy_as_notfound⟩
  intro fetch ids out h
  refine ⟨fun j hj => (fetchUsers_mem pyTruthy fetch ids out h j hj).1, ?_⟩
  intro hobj j hj
  obtain ⟨htr, uid, -, r, hf, h200, hbody⟩ := fetchUsers_mem pyTruthy fetch ids out h j hj
  obtain ⟨fs, hfs⟩ := hobj uid r hf h200
  refine ⟨fs, by rw [hbody, hfs], ?_⟩
  rw [hbody, hfs] at htr
  simpa [pyTruthy] using htr

/-- A GET oracle answering an empty JSON object for id 1 and a record object
elsewhere. -/
def wF9 : Int → HttpResult Json := fun uid =>
  if uid = 1 then .resp ⟨200, Json.obj [], []⟩
  else .resp ⟨200, Json.obj [("id", Json.num 7)], []⟩

/-- `wF9` with the falsy 200 replaced by a plain 404. -/
def wG9 : Int → HttpResult Json := fun uid =>
  if uid = 1 then .resp ⟨404, Json.null, []⟩
  else .resp ⟨200, Json.obj [("id", Json.num 7)], []⟩

theorem claim_c9_witness :
    (∀ j ∈ [Json.obj [("id", Json.num 7)]], pyTruthy j = true) ∧
      fetchUsers pyTruthy wF9 [1, 2] = fetchUsers pyTruthy wG9 [1, 2] := by
  constructor
  · intro j hj
    exact (claim_c9_theorem.1 wF9 [1, 2] [Json.obj [("id", Json.num 7)]] rfl).1 j hj
  · refine claim_c9_theorem.2 wF9 wG9 ?_ [1, 2]
    intro uid
    by_cases h : uid = 1
    · exact Or.inr ⟨⟨200, Json.obj [], []⟩, ⟨404, Json.null, []⟩,
        by simp [wF9, h], rfl, rfl, by simp [wG9, h], rfl⟩
    · exact Or.inl (by simp [wF9, wG9, h])

/-! ## Idempotence analysis of `clean_text` (C10)

`clean_text` is a fixed point on its own output only when re-running the
pipeline changes nothing.  The whitespace part is characterised by
`wsNormed`: every whitespace character is a plain space and no two adjacent
characters are both whitespace. -/

/-- The local condition `wsNormed` checks at each position: a whitespace
character must be a plain space followed by a non-whitespace (or the end). -/
def okPair (c : Char) (next : Option Char) : Bool :=
  !isSpace c || (c = ' ' && (match next with | some d => !isSpace d | none => true))

/-- Whitespace-normal form: what `collapseWs` leaves invariant. -/
def wsNormed : Str → Bool
  | [] => true
  | c :: rest => okPair c rest.head? && wsNormed rest

lemma okPair_weaken (c : Char) (o : Option Char) (h : okPair c o = true) :
    okPair c none = true := by
  cases o with
  | none => exact h
  | some d =>
    simp only [okPair, Bool.or_eq_true, Bool.and_eq_true, decide_eq_true_eq,
      Bool.and_true] at h ⊢
    rcases h with h | ⟨h1, -⟩
    · exact Or.inl h
    · exact Or.inr h1

lemma wsNormed_append_right (l₁ l₂ : Str) (h : wsNormed (l₁ ++ l₂) = true) :
    wsNormed l₂ = true := by
  induction l₁ with
  | nil => exact h
  | cons c t ih =>
    simp only [List.cons_append, wsNormed, Bool.and_eq_true] at h
    exact ih h.2

lemma wsNormed_append_left (l₁ l₂ : Str) (h : wsNormed (l₁ ++ l₂) = true) :
    wsNormed l₁ = true := by
  induction l₁ with
  | nil => rfl
  | cons c t ih =>
    simp only [List.cons_append, wsNormed, Bool.and_eq_true] at h
    obtain ⟨hop, hrest⟩ := h
    simp only [wsNormed, Bool.and_eq_true]
    refine ⟨?_, ih hrest⟩
    cases t with
    | nil => exact okPair_weaken c _ hop
    | cons e t' => simpa using hop

lemma collapseWs_cons_head (d : Char) (rest : Str) (h : isSpace d = false) :
    (collapseWs (d :: rest)).head? = some d := by
  cases rest with
  | nil => simp [collapseWs, h]
  | cons e r => simp [collapseWs, h]

lemma wsNormed_collapseWs (l : Str) : wsNormed (collapseWs l) = true := by
  induction l using collapseWs.induct with
  | case1 => rfl
  | case2 c =>
    cases hc : isSpace c with
    | true => simp [collapseWs, wsNormed, okPair, hc]
    | false => simp [collapseWs, wsNormed, okPair, hc]
  | case3 c d rest hcond ih =>
    simpa [collapseWs, hcond] using ih
  | case4 c d rest hcond ih =>
    have hres : collapseWs (c :: d :: rest)
        = (if isSpace c then ' ' else c) :: collapseWs (d :: rest) := by
      simp only [collapseWs, if_neg hcond]
    rw [hres]
    simp only [wsNormed, Bool.and_eq_true]
    refine ⟨?_, ih⟩
    by_cases hc : isSpace c = true
    · have hd : isSpace d = false := by
        cases hdd : isSpace d
        · rfl
        · exact absurd (by rw [hc, hdd]; exact rfl) hcond
      rw [if_pos hc, collapseWs_cons_head d rest hd]
      simp only [okPair]
      rw [hd]
      decide
    · have hc' : isSpace c = false := Bool.eq_false_iff.mpr hc
      rw [if_neg hc]
      simp only [okPair]
      rw [hc']
      rfl

lemma collapseWs_eq_self (l : Str) (h : wsNormed l = true) : collapseWs l = l := by
  induction l using collapseWs.induct with
  | case1 => rfl
  | case2 c =>
    by_cases hc : isSpace c = true
    · have hop : okPair c none = true := by
        simp only [wsNormed, List.head?_nil, Bool.and_eq_true] at h
        exact h.1
      have hcsp : c = ' ' := by
        simp only [okPair] at hop
        rw [hc] at hop
        simpa using hop
      simp only [collapseWs]
      rw [if_pos hc, hcsp]
    · simp only [collapseWs]
      rw [if_neg hc]
  | case3 c d rest hcond ih =>
    exfalso
    rw [Bool.and_eq_true] at hcond
    have hop : okPair c (some d) = true := by
      simp only [wsNormed, List.head?_cons, Bool.and_eq_true] at h
      exact h.1
    simp only [okPair] at hop
    rw [hcond.1, hcond.2] at hop
    simp at hop
  | case4 c d rest hcond ih =>
    simp only [wsNormed, List.head?_cons, Bool.and_eq_true] at h
    obtain ⟨hop, htail⟩ := h
    have hrest : collapseWs (d :: rest) = d :: rest := by
      refine ih ?_
      simp only [wsNormed, Bool.and_eq_true]
      exact htail
    have hres : collapseWs (c :: d :: rest)
        = (if isSpace c then ' ' else c) :: collapseWs (d :: rest) := by
      simp only [collapseWs, if_neg hcond]
    rw [hres, hrest]
    by_cases hc : isSpace c = true
    · have hcsp : c = ' ' := by
        simp only [okPair] at hop
        rw [hc] at hop
        simp only [Bool.not_true, Bool.false_or, Bool.and_eq_true, decide_eq_true_eq] at hop
        exact hop.1
      rw [if_pos hc, hcsp]
    · rw [if_neg hc]

lemma mem_collapseWs : ∀ (l : Str) (c : Char), c ∈ collapseWs l → c = ' ' ∨ c ∈ l := by
  intro l
  induction l using collapseWs.induct with
  | case1 => simp [collapseWs]
  | case2 d =>
    intro c h
    cases hd : isSpace d with
    | true =>
      rw [collapseWs, if_pos (by rw [hd])] at h
      exact Or.inl (List.mem_singleton.mp h)
    | false =>
      rw [collapseWs, if_neg (by rw [hd]; exact Bool.false_ne_true)] at h
      exact Or.inr h
  | case3 d e rest hcond ih =>
    intro c h
    rw [collapseWs, if_pos hcond] at h
    rcases ih c h with h | h
    · exact Or.inl h
    · exact Or.inr (List.mem_cons_of_mem d h)
  | case4 d e rest hcond ih =>
    intro c h
    rw [show collapseWs (d :: e :: rest)
        = (if isSpace d then ' ' else d) :: collapseWs (e :: rest) from by
      simp only [collapseWs, if_neg hcond]] at h
    rcases List.mem_cons.mp h with h | h
    · cases hd : isSpace d with
      | true => exact Or.inl (by rwa [if_pos (by rw [hd])] at h)
      | false =>
        rw [if_neg (by rw [hd]; exact Bool.false_ne_true)] at h
        exact Or.inr (h ▸ List.mem_cons_self d _)
    · rcases ih c h with h | h
      · exact Or.inl h
      · exact Or.inr (List.mem_cons_of_mem d h)

lemma replace2_sublist (a b : Char) : ∀ l : Str, List.Sublist (replace2 a b l) l
  | [] => by simp [replace2]
  | [c] => by simp [replace2]
  | c :: d :: rest => by
    simp only [replace2]
    split
    · exact (replace2_sublist a b rest).trans
        ((List.sublist_cons_self d rest).trans (List.sublist_cons_self c (d :: rest)))
    · exact List.Sublist.cons₂ c (replace2_sublist a b (d :: rest))

lemma replace2_eq_self (a b : Char) : ∀ l : Str, a ∉ l → replace2 a b l = l
  | [] => fun _ => rfl
  | [c] => fun _ => rfl
  | c :: d :: rest => fun h => by
    have hca : ¬((c = a && d = b) = true) := by
      simp only [Bool.and_eq_true, decide_eq_true_eq]
      rintro ⟨hc, -⟩
      exact h (hc ▸ List.mem_cons_self c _)
    simp only [replace2, if_neg hca]
    exact congrArg (c :: ·) (replace2_eq_self a b (d :: rest)
      (fun hm => h (List.mem_cons_of_mem c hm)))

lemma lstrip_suffix_decomp (l : Str) : ∃ t, t ++ lstrip l = l := by
  induction l with
  | nil => exact ⟨[], rfl⟩
  | cons c rest ih =>
    cases hc : isSpace c with
    | true =>
      obtain ⟨t, ht⟩ := ih
      refine ⟨c :: t, ?_⟩
      rw [lstrip, List.dropWhile_cons, if_pos (by rw [hc])]
      exact congrArg (c :: ·) ht
    | false =>
      refine ⟨[], ?_⟩
      rw [lstrip, List.dropWhile_cons, if_neg (by rw [hc]; exact Bool.false_ne_true)]
      rfl

lemma rstrip_prefix_decomp (l : Str) : ∃ t, rstrip l ++ t = l := by
  obtain ⟨t, ht⟩ := lstrip_suffix_decomp l.reverse
  refine ⟨t.reverse, ?_⟩
  have h2 := congrArg List.reverse ht
  rw [List.reverse_append] at h2
  rw [List.reverse_reverse] at h2
  exact h2

lemma mem_of_mem_lstrip {c : Char} {l : Str} (h : c ∈ lstrip l) : c ∈ l := by
  obtain ⟨t, ht⟩ := lstrip_suffix_decomp l
  rw [← ht]
  exact List.mem_append_right t h

lemma mem_of_mem_rstrip {c : Char} {l : Str} (h : c ∈ rstrip l) : c ∈ l := by
  obtain ⟨t, ht⟩ := rstrip_prefix_decomp l
  rw [← ht]
  exact List.mem_append_left t h

lemma mem_of_mem_strip {c : Char} {l : Str} (h : c ∈ strip l) : c ∈ l :=
  mem_of_mem_lstrip (mem_of_mem_rstrip h)

lemma wsNormed_strip (l : Str) (h : wsNormed l = true) : wsNormed (strip l) = true := by
  have h1 : wsNormed (lstrip l) = true := by
    obtain ⟨t, ht⟩ := lstrip_suffix_decomp l
    exact wsNormed_append_right t (lstrip l) (by rwa [ht])
  obtain ⟨t₂, ht₂⟩ := rstrip_prefix_decomp (lstrip l)
  exact wsNormed_append_left (rstrip (lstrip l)) t₂ (by rwa [ht₂])

lemma dropWhile_idem (p : Char → Bool) : ∀ l : Str, (l.dropWhile p).dropWhile p = l.dropWhile p := by
  intro l
  induction l with
  | nil => rfl
  | cons c rest ih =>
    cases hc : p c with
    | true => rw [List.dropWhile_cons, if_pos (by rw [hc])]; exact ih
    | false =>
      rw [List.dropWhile_cons, if_neg (by rw [hc]; exact Bool.false_ne_true)]
      rw [List.dropWhile_cons, if_neg (by rw [hc]; exact Bool.false_ne_true)]

lemma lstrip_cases (l : Str) :
    lstrip l = [] ∨ ∃ c t, lstrip l = c :: t ∧ isSpace c = false := by
  induction l with
  | nil => exact Or.inl rfl
  | cons c rest ih =>
    cases hc : isSpace c with
    | true =>
      rw [lstrip, List.dropWhile_cons, if_pos (by rw [hc])]
      exact ih
    | false =>
      refine Or.inr ⟨c, rest, ?_, hc⟩
      rw [lstrip, List.dropWhile_cons, if_neg (by rw [hc]; exact Bool.false_ne_true)]

lemma rstrip_idem (l : Str) : rstrip (rstrip l) = rstrip l := by
  unfold rstrip
  rw [List.reverse_reverse, dropWhile_idem]

lemma lstrip_rstrip (l : Str) : lstrip (rstrip (lstrip l)) = rstrip (lstrip l) := by
  rcases lstrip_cases l with h | ⟨c, t, h, hc⟩
  · rw [h]
    rfl
  · rw [h]
    rcases hr : rstrip (c :: t) with _ | ⟨c', t'⟩
    · rfl
    · obtain ⟨t₂, ht₂⟩ := rstrip_prefix_decomp (c :: t)
      rw [hr] at ht₂
      have hc' : c' = c := by
        have h3 := congrArg List.head? ht₂
        simpa using h3
      subst hc'
      rw [lstrip, List.dropWhile_cons, if_neg (by rw [hc]; exact Bool.false_ne_true)]

lemma strip_idem (l : Str) : strip (strip l) = strip l := by
  unfold strip
  rw [lstrip_rstrip, rstrip_idem]

lemma clean_text_eq (t : Str) : clean_text t
    = strip (collapseWs (removeChar '*' (removeChar (Char.ofNat 96)
        (replace2 '_' '_' (replace2 '*' '*' (strip t)))))) := rfl

lemma star_not_mem_clean (t : Str) : '*' ∉ clean_text t := by
  rw [clean_text_eq]
  intro h
  have h1 := mem_of_mem_strip h
  rcases mem_collapseWs _ '*' h1 with h2 | h2
  · exact absurd h2 (by decide)
  · rw [removeChar] at h2
    have h3 := (List.mem_filter.mp h2).2
    simp at h3

lemma backtick_not_mem_clean (t : Str) : Char.ofNat 96 ∉ clean_text t := by
  rw [clean_text_eq]
  intro h
  have h1 := mem_of_mem_strip h
  rcases mem_collapseWs _ _ h1 with h2 | h2
  · exact absurd h2 (by decide)
  · rw [removeChar] at h2
    have h3 := (List.filter_sublist _).subset h2
    rw [removeChar] at h3
    have h4 := (List.mem_filter.mp h3).2
    simp at h4

lemma underscore_not_mem_clean (t : Str) (h : '_' ∉ t) : '_' ∉ clean_text t := by
  rw [clean_text_eq]
  intro hc
  have h1 := mem_of_mem_strip hc
  rcases mem_collapseWs _ _ h1 with h2 | h2
  · exact absurd h2 (by decide)
  · rw [removeChar] at h2
    have h3 := (List.filter_sublist _).subset h2
    rw [removeChar] at h3
    have h4 := (List.filter_sublist _).subset h3
    have h5 := (replace2_sublist '_' '_' _).subset h4
    have h6 := (replace2_sublist '*' '*' _).subset h5
    exact h (mem_of_mem_strip h6)

/-- C10 (amended): `clean_text` is idempotent on every string that contains no
underscore.  (In general it is not: removing backticks or asterisks can create
a fresh `__` pair that only a second pass would delete.) -/
theorem claim_c10_theorem (s : Str) (h : '_' ∉ s) :
    clean_text (clean_text s) = clean_text s := by
  have h1 : strip (clean_text s) = clean_text s := by
    rw [clean_text_eq s]
    exact strip_idem _
  have hnorm : wsNormed (clean_text s) = true := by
    rw [clean_text_eq s]
    exact wsNormed_strip _ (wsNormed_collapseWs _)
  have h2 : replace2 '*' '*' (clean_text s) = clean_text s :=
    replace2_eq_self '*' '*' _ (star_not_mem_clean s)
  have h3 : replace2 '_' '_' (clean_text s) = clean_text s :=
    replace2_eq_self '_' '_' _ (underscore_not_mem_clean s h)
  have h4 : removeChar (Char.ofNat 96) (clean_text s) = clean_text s := by
    rw [removeChar]
    exact List.filter_eq_self.mpr
      (fun c hc => decide_eq_true (fun hcbt => backtick_not_mem_clean s (hcbt ▸ hc)))
  have h5 : removeChar '*' (clean_text s) = clean_text s := by
    rw [removeChar]
    exact List.filter_eq_self.mpr
      (fun c hc => decide_eq_true (fun hcst => star_not_mem_clean s (hcst ▸ hc)))
  have h6 : collapseWs (clean_text s) = clean_text s := collapseWs_eq_self _ hnorm
  calc clean_text (clean_text s)
      = strip (collapseWs (removeChar '*' (removeChar (Char.ofNat 96)
          (replace2 '_' '_' (replace2 '*' '*' (strip (clean_text s))))))) := clean_text_eq _
    _ = clean_text s := by rw [h1, h2, h3, h4, h5, h6, h1]

/-- C10 fails on the code in general: on `"_*_"` the first pass removes the
asterisk and leaves `"__"`, which a second pass deletes. -/
theorem claim_c10_counterexample :
    clean_text (clean_text (("_*_").toList)) ≠ clean_text (("_*_").toList) := by decide

theorem claim_c10_witness :
    clean_text (clean_text (("Olá,   **mundo**  ").toList))
      = clean_text (("Olá,   **mundo**  ").toList) :=
  claim_c10_theorem _ (by decide)

end Etl
